import Mathlib

/-!
Shallow embedding of the PyBioPharma parameter-binding and search engine:
the specification-driven validated containers (`biopharma/specs.py`), the
generator hierarchy, Variables and Individuals, the genetic-algorithm
Optimiser and the Monte-Carlo SensitivityAnalyser
(`biopharma/optimisation.py`).  This snapshot of the repository ships only
the notebooks, the documentation and the web templates; the engine modules
themselves are absent, so every definition below is modelled from the
specification (and from the class diagram in `docs/class_diagram.txt` and
the API calls visible in the notebooks), as flagged in each doc comment.
Machine-level details that the spec leaves to Python (selector objects,
unit registry, the `random` module) are modelled by explicit pure data:
selectors plus attribute names become flat string keys, quantities carry a
symbolic unit with an exact rational conversion factor, and the PRNG is an
explicit integer state threaded through every draw.
-/

namespace BioPharma

/-- Modelled from the spec: the single explicit, seedable pseudo-random
generator per Optimiser/Analyser instance (spec section 5); the Python
`random` state is modelled as a natural-number state with a linear
congruential step.  `rngNext` returns (output, next state). -/
def rngNext (s : Nat) : Nat × Nat :=
  let s2 := (s * 1103515245 + 12345) % 2147483648
  (s2 / 65536, s2)

/-- Modelled from the spec: unit dimensions of quantity values (the spec
only requires that values carry a dimension that validation can compare). -/
inductive Dim
  | mass
  | volume
  | money
  | time
  | dimensionless
deriving DecidableEq

/-- Modelled from the spec: a concrete unit, given by its dimension and the
exact rational factor converting it to the dimension's base unit. -/
structure MUnit where
  dim : Dim
  factor : ℚ
deriving DecidableEq

/-- Modelled from the spec: a units-aware quantity value (magnitude in a
given unit). -/
structure Quantity where
  magnitude : ℚ
  unit : MUnit
deriving DecidableEq

/-- Convert a quantity to another unit of the same dimension; exact on ℚ. -/
def Quantity.convertTo (q : Quantity) (u : MUnit) : Quantity :=
  ⟨q.magnitude * q.unit.factor / u.factor, u⟩

/-- Modelled from the spec: the values storable in a validated container -
quantities with units, booleans and integers. -/
inductive Val
  | quantityV (q : Quantity)
  | boolV (b : Bool)
  | intV (n : ℤ)
deriving DecidableEq

/-- Value types for the `Value` specification variant. -/
inductive VType
  | boolT
  | intT
deriving DecidableEq

/-- Modelled from the spec (`biopharma/specs.py` is absent): the descriptor
variants that govern what may be stored under a key - `Q` (quantity with a
canonical unit), `Value` (typed value) and `Enumerated` (one of a fixed
set).  The `Table`, `Nested` and `Computed` variants play no role in the
claims and are omitted. -/
inductive Spec
  | quantitySpec (canonical : MUnit)
  | valueSpec (t : VType)
  | enumerated (choices : List Val)
deriving DecidableEq

/-- Modelled from the spec: validation of a value against a descriptor.
Returns the canonicalised value on success (`Q` values are converted
exactly to the descriptor's canonical unit) and `none` on a dimension,
type or choice-set mismatch. -/
def Spec.check : Spec → Val → Option Val
  | .quantitySpec u, .quantityV q =>
      if q.unit.dim = u.dim then some (.quantityV (q.convertTo u)) else none
  | .quantitySpec _, _ => none
  | .valueSpec .boolT, .boolV b => some (.boolV b)
  | .valueSpec .boolT, _ => none
  | .valueSpec .intT, .intV n => some (.intV n)
  | .valueSpec .intT, _ => none
  | .enumerated cs, v => if cs.contains v then some v else none

/-- Association-list lookup by key (first match). -/
def lookupKV {α : Type} (k : String) : List (String × α) → Option α
  | [] => none
  | (k2, v) :: rest => if k = k2 then some v else lookupKV k rest

/-- Association-list update: replace the first binding of `k`, or append. -/
def setValue {α : Type} (k : String) (v : α) : List (String × α) → List (String × α)
  | [] => [(k, v)]
  | (k2, v2) :: rest =>
      if k = k2 then (k, v) :: rest else (k2, v2) :: setValue k v rest

/-- Modelled from the spec: the keyed, specification-checked container
(`SpecifiedDict` in the class diagram): a fixed map of declared
specifications plus the currently stored values. -/
structure SpecifiedDict where
  specs : List (String × Spec)
  values : List (String × Val)
deriving DecidableEq

/-- Errors raised by `SpecifiedDict.set`: writing an undeclared key, or a
value that fails its declared specification. -/
inductive SetErr
  | unknownKey
  | validationError
deriving DecidableEq

/-- Modelled from the spec: `set(key, value)` on a validated container.
Returns the (possibly updated) container together with `none` on success
or the error raised; on any failure the container is returned unchanged.
On success the stored value is the canonicalised (unit-converted) value. -/
def SpecifiedDict.set (d : SpecifiedDict) (k : String) (v : Val) :
    SpecifiedDict × Option SetErr :=
  match lookupKV k d.specs with
  | none => (d, some .unknownKey)
  | some s =>
      match s.check v with
      | none => (d, some .validationError)
      | some w => ({ d with values := setValue k w d.values }, none)

/-- Looking up a key just after `setValue` on that key yields the new value. -/
theorem lookupKV_setValue {α : Type} (k : String) (v : α) (l : List (String × α)) :
    lookupKV k (setValue k v l) = some v := by
  induction l with
  | nil => simp [setValue, lookupKV]
  | cons h t ih =>
      obtain ⟨k2, v2⟩ := h
      by_cases hk : k = k2
      · simp [setValue, hk, lookupKV]
      · simp [setValue, hk, lookupKV, ih]

/-- C6: for a declared key, assigning a value whose unit dimension, type or
choice-set membership does not match the key's specification fails with a
validation error and returns the container unchanged (so the previously
stored value, or its absence, is preserved); assigning a quantity of the
right dimension to a quantity-spec key succeeds and stores the value
converted exactly to the descriptor's canonical unit. -/
theorem specifiedDict_set_spec (d : SpecifiedDict) (k : String) (v : Val) (s : Spec)
    (hs : lookupKV k d.specs = some s) :
    (Spec.check s v = none →
      d.set k v = (d, some SetErr.validationError)) ∧
    (∀ u q, s = Spec.quantitySpec u → v = Val.quantityV q → q.unit.dim = u.dim →
      (d.set k v).snd = none ∧
      lookupKV k (d.set k v).fst.values = some (Val.quantityV (q.convertTo u))) := by
  constructor
  · intro hchk
    simp [SpecifiedDict.set, hs, hchk]
  · intro u q hspec hval hdim
    subst hspec
    subst hval
    simp [SpecifiedDict.set, hs, Spec.check, hdim, lookupKV_setValue]

/-- Concrete container used in the C6 witness: one declared key `p`
expecting a mass quantity canonically in grams. -/
def wGram : MUnit := ⟨Dim.mass, 1⟩

/-- Concrete unit for the C6 witness: kilograms (factor 1000 to grams). -/
def wKg : MUnit := ⟨Dim.mass, 1000⟩

/-- Concrete container for the C6 witness, holding a previously stored value. -/
def wDict : SpecifiedDict :=
  ⟨[("p", Spec.quantitySpec wGram)], [("p", Val.quantityV ⟨7, wGram⟩)]⟩

/-- Witness for C6: writing a boolean to the quantity-spec key `p` of
`wDict` fails validation and leaves the container untouched, and writing
2 kg succeeds, storing exactly 2000 g. -/
theorem specifiedDict_set_spec_witness :
    (wDict.set "p" (Val.boolV true) = (wDict, some SetErr.validationError)) ∧
    ((wDict.set "p" (Val.quantityV ⟨2, wKg⟩)).snd = none ∧
      lookupKV "p" (wDict.set "p" (Val.quantityV ⟨2, wKg⟩)).fst.values =
        some (Val.quantityV (Quantity.convertTo ⟨2, wKg⟩ wGram))) :=
  ⟨(specifiedDict_set_spec wDict "p" (Val.boolV true) (Spec.quantitySpec wGram) rfl).1
      (by decide),
    (specifiedDict_set_spec wDict "p" (Val.quantityV ⟨2, wKg⟩)
        (Spec.quantitySpec wGram) rfl).2 wGram ⟨2, wKg⟩ rfl rfl (by decide)⟩

/-- Modelled from the spec: the generator hierarchy of
`biopharma/optimisation.py` (class diagram: `Generator`, `RangeGenerator`,
`ChoiceGenerator`, `Binary`).  `binary` draws a boolean uniformly, `range`
draws an integer uniformly in `[lo, hi)`, `choice` draws uniformly from a
fixed list. -/
inductive Gen
  | binary
  | range (lo hi : ℤ)
  | choice (choices : List Val)

/-- Modelled from the spec: `draw` produces a candidate value using only
the provided deterministic random output `k`; `none` when the generator's
domain is empty (an empty range or choice list has nothing to draw). -/
def Gen.drawVal : Gen → Nat → Option Val
  | .binary, k => some (.boolV (k % 2 == 1))
  | .range lo hi, k =>
      if lo < hi then some (.intV (lo + (k : ℤ) % (hi - lo))) else none
  | .choice cs, k => cs.get? (k % cs.length)

/-- Modelled from the spec: `is_valid` checks the generator's domain
constraint (boolean kind, within the declared range, among the declared
choices). -/
def Gen.isValid : Gen → Val → Bool
  | .binary, .boolV _ => true
  | .binary, _ => false
  | .range lo hi, .intV n => decide (lo ≤ n ∧ n < hi)
  | .range _ _, _ => false
  | .choice cs, v => cs.contains v

/-- Distance between two values, used to snap an invalid value to the
nearest choice; values of different kinds are infinitely far apart. -/
def vdist : Val → Val → ℕ∞
  | .intV a, .intV b => ((a - b).natAbs : ℕ∞)
  | .boolV a, .boolV b => if a = b then 0 else 1
  | .quantityV a, .quantityV b => if a = b then 0 else ⊤
  | _, _ => ⊤

/-- The distance of a value to itself is zero. -/
theorem vdist_self (v : Val) : vdist v v = 0 := by
  cases v <;> simp [vdist]

/-- Distance zero forces equality. -/
theorem vdist_eq_zero {a b : Val} (h : vdist a b = 0) : a = b := by
  cases a <;> cases b
  case quantityV.quantityV qa qb =>
    simp only [vdist] at h
    split at h
    · next he => exact congrArg Val.quantityV he
    · exact absurd h (by simp)
  case boolV.boolV ba bb =>
    simp only [vdist] at h
    split at h
    · next he => exact congrArg Val.boolV he
    · exact absurd h (by simp)
  case intV.intV na nb =>
    simp only [vdist] at h
    have h2 : (na - nb).natAbs = 0 := by exact_mod_cast h
    have h3 : na = nb := by omega
    exact congrArg Val.intV h3
  all_goals simp only [vdist] at h
  all_goals exact absurd h (by simp)

/-- Snap a value to the nearest element of a choice list, preferring the
earliest choice on ties; `none` only for an empty list. -/
def snap (v : Val) : List Val → Option Val
  | [] => none
  | c :: cs =>
      match snap v cs with
      | none => some c
      | some w => if vdist v c ≤ vdist v w then some c else some w

/-- The snapped value is one of the choices. -/
theorem snap_mem {v w : Val} {cs : List Val} (h : snap v cs = some w) : w ∈ cs := by
  induction cs generalizing w with
  | nil => simp [snap] at h
  | cons c rest ih =>
      simp only [snap] at h
      cases hrec : snap v rest with
      | none => rw [hrec] at h; simp at h; simp [h]
      | some w2 =>
          rw [hrec] at h
          by_cases hle : vdist v c ≤ vdist v w2
          · simp [hle] at h; simp [h]
          · simp [hle] at h
            exact List.mem_cons_of_mem c (ih (h ▸ hrec))

/-- Snapping succeeds on any nonempty choice list. -/
theorem snap_isSome {v : Val} {cs : List Val} (h : cs ≠ []) :
    ∃ w, snap v cs = some w := by
  cases cs with
  | nil => exact absurd rfl h
  | cons c rest =>
      simp only [snap]
      cases hrec : snap v rest with
      | none => exact ⟨c, rfl⟩
      | some w2 =>
          by_cases hle : vdist v c ≤ vdist v w2
          · exact ⟨c, by simp [hle]⟩
          · exact ⟨w2, by simp [hle]⟩

/-- The snapped value minimises the distance over the choice list. -/
theorem snap_dist_le {v w : Val} {cs : List Val} (h : snap v cs = some w) :
    ∀ c ∈ cs, vdist v w ≤ vdist v c := by
  induction cs generalizing w with
  | nil => simp [snap] at h
  | cons c rest ih =>
      intro c2 hc2
      simp only [snap] at h
      cases hrec : snap v rest with
      | none =>
          rw [hrec] at h
          simp at h
          subst h
          rcases List.mem_cons.mp hc2 with h2 | h2
          · subst h2; exact le_refl _
          · cases rest with
            | nil => simp at h2
            | cons a b => obtain ⟨w3, hw3⟩ := @snap_isSome v (a :: b) (by simp); simp [hw3] at hrec
      | some w2 =>
          rw [hrec] at h
          by_cases hle : vdist v c ≤ vdist v w2
          · simp [hle] at h
            subst h
            rcases List.mem_cons.mp hc2 with h2 | h2
            · subst h2; exact le_refl _
            · exact le_trans hle (ih hrec c2 h2)
          · simp [hle] at h
            subst h
            rcases List.mem_cons.mp hc2 with h2 | h2
            · subst h2; exact le_of_not_le hle
            · exact ih hrec c2 h2

/-- Snapping a value that is itself among the choices returns it. -/
theorem snap_self {v : Val} {cs : List Val} (h : v ∈ cs) : snap v cs = some v := by
  obtain ⟨w, hw⟩ := @snap_isSome v cs (List.ne_nil_of_mem h)
  have hle : vdist v w ≤ vdist v v := snap_dist_le hw v h
  rw [vdist_self] at hle
  have hz : vdist v w = 0 := le_antisymm hle (zero_le _)
  rw [hw, vdist_eq_zero hz]

/-- Errors raised by `Generator.repair`: no valid value exists in the
generator's domain, or the value is of a kind the generator cannot handle. -/
inductive RepairErr
  | noValidValue
  | wrongKind
deriving DecidableEq

/-- Modelled from the spec: `repair` deterministically maps a value to the
nearest valid one - clamp to the declared range, snap to the nearest
declared choice - failing only when no valid value exists for the
generator or the value kind does not match. -/
def Gen.repair : Gen → Val → Except RepairErr Val
  | .binary, .boolV b => .ok (.boolV b)
  | .binary, _ => .error .wrongKind
  | .range lo hi, .intV n =>
      if lo < hi then .ok (.intV (max lo (min n (hi - 1)))) else .error .noValidValue
  | .range _ _, _ => .error .wrongKind
  | .choice cs, v =>
      match snap v cs with
      | some w => .ok w
      | none => .error .noValidValue

/-- A value the generator's own `draw` could produce. -/
def Gen.Drawable (g : Gen) (x : Val) : Prop := ∃ k, g.drawVal k = some x

/-- Values drawn by a range generator lie in the declared half-open range. -/
theorem drawable_range {lo hi : ℤ} {x : Val} (h : (Gen.range lo hi).Drawable x) :
    ∃ n, x = Val.intV n ∧ lo ≤ n ∧ n < hi := by
  obtain ⟨k, hk⟩ := h
  simp only [Gen.drawVal] at hk
  by_cases hlt : lo < hi
  · simp [hlt] at hk
    refine ⟨lo + (k : ℤ) % (hi - lo), hk.symm, ?_, ?_⟩
    · have := Int.emod_nonneg (k : ℤ) (by omega : hi - lo ≠ 0)
      omega
    · have := Int.emod_lt_of_pos (k : ℤ) (by omega : 0 < hi - lo)
      omega
  · simp [hlt] at hk

/-- Values drawn by a choice generator are among the declared choices. -/
theorem drawable_choice {cs : List Val} {x : Val} (h : (Gen.choice cs).Drawable x) :
    x ∈ cs := by
  obtain ⟨k, hk⟩ := h
  exact List.get?_mem hk

/-- C5: for every generator variant (binary, bounded-range,
discrete-choice) and every input its own `draw` could produce, `repair`
succeeds and is idempotent: `repair (repair x) = repair x`. -/
theorem generator_repair_idempotent (g : Gen) (x : Val) (h : g.Drawable x) :
    (∃ y, g.repair x = Except.ok y) ∧
    (g.repair x).bind g.repair = g.repair x := by
  cases g with
  | binary =>
      obtain ⟨k, hk⟩ := h
      simp only [Gen.drawVal] at hk
      injection hk with hk2
      subst hk2
      exact ⟨⟨_, rfl⟩, rfl⟩
  | range lo hi =>
      obtain ⟨n, rfl, hlo, hhi⟩ := drawable_range h
      have hlt : lo < hi := lt_of_le_of_lt hlo hhi
      have hcl : max lo (min n (hi - 1)) = n := by omega
      constructor
      · exact ⟨Val.intV n, by simp [Gen.repair, hlt, hcl]⟩
      · simp [Gen.repair, hlt, hcl, Except.bind]
  | choice cs =>
      have hmem : x ∈ cs := drawable_choice h
      have hsnap : snap x cs = some x := snap_self hmem
      constructor
      · exact ⟨x, by simp [Gen.repair, hsnap]⟩
      · simp [Gen.repair, hsnap, Except.bind]

/-- Witness for C5: the value 3 is drawable by `RangeGenerator(0, 10)`,
its repair succeeds, and repairing it again changes nothing. -/
theorem generator_repair_idempotent_witness :
    Gen.Drawable (Gen.range 0 10) (Val.intV 3) ∧
    ((∃ y, (Gen.range 0 10).repair (Val.intV 3) = Except.ok y) ∧
      ((Gen.range 0 10).repair (Val.intV 3)).bind (Gen.range 0 10).repair =
        (Gen.range 0 10).repair (Val.intV 3)) :=
  ⟨⟨3, by decide⟩, generator_repair_idempotent (Gen.range 0 10) (Val.intV 3) ⟨3, by decide⟩⟩

/-- Modelled from the spec: the live model state seen by the engine.  The
engine only ever reads/writes a named attribute of a component resolved by
a selector, so (selector, attribute) pairs are flattened to string keys
and the model is a keyed store of values. -/
abbrev Model : Type := List (String × Val)

/-- Total draw: the drawn value, falling back to a fixed default when the
generator's domain is empty (that situation raises in Python and is
excluded by every hypothesis below). -/
def Gen.drawD (g : Gen) (k : Nat) : Val :=
  match g.drawVal k with
  | some v => v
  | none => Val.boolV false

/-- Modelled from the spec: a Variable binds a generator to a (component,
attribute) target, flattened to `key`.  `genOf` builds the generator from
the current model state, so a later variable's generation, validity and
repair may depend on an earlier variable's already-applied value (for
example range bounds read from another parameter). -/
structure Variable where
  key : String
  genOf : Model → Gen

/-- Modelled from the spec: `Individual.draw` - draw every Variable in
declaration order, writing each drawn value into the live model before the
next Variable is drawn.  Returns the drawn (key, value) list in order, the
final model and the final rng state. -/
def drawVars : List Variable → Model → Nat → List (String × Val) × Model × Nat
  | [], m, r => ([], m, r)
  | d :: ds, m, r =>
      let g := d.genOf m
      let p := rngNext r
      let v := g.drawD p.1
      let m2 := setValue d.key v m
      let rest := drawVars ds m2 p.2
      ((d.key, v) :: rest.1, rest.2.1, rest.2.2)

/-- One drawn entry per declared Variable. -/
theorem drawVars_length (ds : List Variable) (m : Model) (r : Nat) :
    (drawVars ds m r).1.length = ds.length := by
  induction ds generalizing m r with
  | nil => simp [drawVars]
  | cons d rest ih => simp [drawVars, ih]

/-- C4: `Individual.draw` draws and applies every Variable strictly in
declaration order: the i-th drawn value is generated from exactly the
model state produced by drawing and applying the first i Variables (so a
later Variable's generator may observe an earlier Variable's applied
value, never the reverse), and that value is written into the live model
before the next Variable is drawn. -/
theorem individual_draw_order (ds : List Variable) (m : Model) (r : Nat)
    (i : Nat) (h : i < ds.length) :
    (drawVars ds m r).1.get? i =
      some ((ds.get ⟨i, h⟩).key,
        ((ds.get ⟨i, h⟩).genOf (drawVars (ds.take i) m r).2.1).drawD
          (rngNext (drawVars (ds.take i) m r).2.2).1) ∧
    (drawVars (ds.take (i + 1)) m r).2.1 =
      setValue (ds.get ⟨i, h⟩).key
        (((ds.get ⟨i, h⟩).genOf (drawVars (ds.take i) m r).2.1).drawD
          (rngNext (drawVars (ds.take i) m r).2.2).1)
        (drawVars (ds.take i) m r).2.1 := by
  induction i generalizing ds m r with
  | zero =>
      cases ds with
      | nil => simp at h
      | cons d rest =>
          constructor
          · simp [drawVars]
          · simp [drawVars]
  | succ i ih =>
      cases ds with
      | nil => simp at h
      | cons d rest =>
          have h2 : i < rest.length := by simpa using h
          have hrec := ih rest
            (setValue d.key ((d.genOf m).drawD (rngNext r).1) m) (rngNext r).2 h2
          constructor
          · simpa [drawVars, List.take_succ_cons] using hrec.1
          · simpa [drawVars, List.take_succ_cons] using hrec.2

/-- First concrete Variable for the C4 witness: an independent range. -/
def wVarA : Variable := ⟨"a", fun _ => Gen.range 0 10⟩

/-- Second concrete Variable for the C4 witness: its range bound reads the
already-applied value of `a` from the live model. -/
def wVarB : Variable :=
  ⟨"b", fun m =>
    Gen.range 0 (match lookupKV "a" m with
      | some (Val.intV n) => n + 1
      | _ => 1)⟩

/-- Declaration-ordered variable list for the C4 witness. -/
def wVars : List Variable := [wVarA, wVarB]

/-- Witness for C4: in the two-variable list `wVars`, where the second
variable's generator depends on the first variable's applied value, the
second drawn entry is generated from the model with the first value
already applied and is itself applied before drawing would continue. -/
theorem individual_draw_order_witness :
    1 < wVars.length ∧
    ((drawVars wVars [] 7).1.get? 1 =
      some ((wVars.get ⟨1, by decide⟩).key,
        ((wVars.get ⟨1, by decide⟩).genOf (drawVars (wVars.take 1) [] 7).2.1).drawD
          (rngNext (drawVars (wVars.take 1) [] 7).2.2).1) ∧
    (drawVars (wVars.take 2) [] 7).2.1 =
      setValue (wVars.get ⟨1, by decide⟩).key
        (((wVars.get ⟨1, by decide⟩).genOf (drawVars (wVars.take 1) [] 7).2.1).drawD
          (rngNext (drawVars (wVars.take 1) [] 7).2.2).1)
        (drawVars (wVars.take 1) [] 7).2.1) :=
  ⟨by decide, individual_draw_order wVars [] 7 1 (by decide)⟩

/-- Modelled from the spec: the error taxonomy of model evaluation - a
`ModelEvaluationError` (the model run raises, e.g. a physically invalid
parameter combination), the only locally recovered kind, versus any other
error. -/
inductive EvalErr
  | modelEvaluationError (msg : String)
  | otherError (msg : String)
deriving DecidableEq

/-- Numeric magnitude of a stored value (quantities taken in base units),
used when a declared output is aggregated or scored. -/
def Val.toRat : Val → ℚ
  | .intV n => (n : ℚ)
  | .boolV b => if b then 1 else 0
  | .quantityV q => q.magnitude * q.unit.factor

/-- Read a declared output of the evaluated model as a number. -/
def readOut (m : Model) (k : String) : ℚ :=
  match lookupKV k m with
  | some v => v.toRat
  | none => 0

/-- Modelled from the spec: an `add_output(label, selector, attribute)`
declaration of the SensitivityAnalyser, with the selector and attribute
flattened to `key`. -/
structure OutDecl where
  label : String
  key : String

/-- Modelled from the spec: the Monte-Carlo SensitivityAnalyser - output
declarations, perturbation variables with their distributions, the
`numberOfSamples` parameter, a retry ceiling for failed runs, the baseline
model and the external model evaluation. -/
structure SensitivityAnalyser where
  varDecls : List Variable
  outDecls : List OutDecl
  numberOfSamples : Nat
  retryCeiling : Nat
  baseline : Model
  evalModel : Model → Except EvalErr Model

/-- Errors surfaced by a sensitivity run: the retry ceiling was exhausted
by failing evaluations, or an unrecoverable error escaped the model. -/
inductive SAErr
  | retryCeilingExhausted
  | fatal (msg : String)
deriving DecidableEq

/-- Modelled from the spec: one sampling attempt - reload the baseline,
draw and apply each declared variable in declaration order, execute the
model, and on success read every declared output. -/
def saAttempt (sa : SensitivityAnalyser) (base : Model) (r : Nat) :
    Except EvalErr (List ℚ) × Nat :=
  let d := drawVars sa.varDecls base r
  match sa.evalModel d.2.1 with
  | .ok m2 => (.ok (sa.outDecls.map fun o => readOut m2 o.key), d.2.2)
  | .error e => (.error e, d.2.2)

/-- Modelled from the spec: the sampling loop - keep sampling until
`need` successes are recorded; a `ModelEvaluationError` discards the
sample (it does not count toward the requested total), increments the
failure count and consumes one retry; exhausting the retries is fatal, as
is any other error.  Returns (rows of successes in order, failed-run
count, attempts made, final rng).  `fuel` is `need + retries` at every
call, so the fuel-exhausted branch is unreachable. -/
def saLoop (sa : SensitivityAnalyser) (base : Model) :
    Nat → Nat → Nat → Nat → Except SAErr (List (List ℚ) × Nat × Nat × Nat)
  | _, 0, _, r => .ok ([], 0, 0, r)
  | 0, _ + 1, _, _ => .error .retryCeilingExhausted
  | fuel + 1, need + 1, retries, r =>
      let a := saAttempt sa base r
      match a.1 with
      | .ok row =>
          match saLoop sa base fuel need retries a.2 with
          | .ok (rows, failed, att, r2) => .ok (row :: rows, failed, att + 1, r2)
          | .error e => .error e
      | .error (.modelEvaluationError _) =>
          match retries with
          | 0 => .error .retryCeilingExhausted
          | retries2 + 1 =>
              match saLoop sa base fuel (need + 1) retries2 a.2 with
              | .ok (rows, failed, att, r2) => .ok (rows, failed + 1, att + 1, r2)
              | .error e => .error e
      | .error (.otherError msg) => .error (.fatal msg)

/-- Per-output statistics reported by the analyser, with the raw sample
list retained. -/
structure Stats where
  minV : ℚ
  maxV : ℚ
  avg : ℚ
  varV : ℚ
  allV : List ℚ
deriving DecidableEq

/-- Modelled from the spec: aggregate the successful samples of one output
into min, max, average and variance (one-pass folds, variance via the
sum-of-squares identity), retaining the raw sample list. -/
def computeStats : List ℚ → Stats
  | [] => ⟨0, 0, 0, 0, []⟩
  | x :: rest =>
      let xs := x :: rest
      let n : ℚ := (xs.length : ℚ)
      let s := xs.foldl (fun a b => a + b) 0
      let s2 := xs.foldl (fun a b => a + b * b) 0
      let mean := s / n
      ⟨rest.foldl min x, rest.foldl max x, mean, s2 / n - mean * mean, xs⟩

/-- Column `i` of the success rows: all recorded samples of one output. -/
def column (rows : List (List ℚ)) (i : Nat) : List ℚ :=
  rows.map fun row => row.getD i 0

/-- Statistics for every declared output, labelled, in declaration order. -/
def statsList (rows : List (List ℚ)) : List OutDecl → Nat → List (String × Stats)
  | [], _ => []
  | d :: ds, i => (d.label, computeStats (column rows i)) :: statsList rows ds (i + 1)

/-- Outputs record of a sensitivity run: per-label statistics, the
failed-run count and the total number of model evaluations attempted. -/
structure SAOutputs where
  stats : List (String × Stats)
  failedRuns : Nat
  attempts : Nat
deriving DecidableEq

/-- Modelled from the spec: `SensitivityAnalyser.run()` against a (possibly
individual-modified) baseline model: sample until `numberOfSamples`
successes or the retry ceiling is exhausted, then aggregate each declared
output over the successful samples. -/
def SensitivityAnalyser.run (sa : SensitivityAnalyser) (base : Model) (r : Nat) :
    Except SAErr (SAOutputs × Nat) :=
  match saLoop sa base (sa.numberOfSamples + sa.retryCeiling)
      sa.numberOfSamples sa.retryCeiling r with
  | .ok (rows, failed, att, r2) =>
      .ok (⟨statsList rows sa.outDecls 0, failed, att⟩, r2)
  | .error e => .error e

/-- Loop invariant of the sampling loop: a successful loop records exactly
the requested number of success rows, makes one attempt per success plus
one per failure, and never fails more often than the retry budget. -/
theorem saLoop_ok_spec (sa : SensitivityAnalyser) (base : Model) :
    ∀ fuel need retries r rows failed att r2,
      saLoop sa base fuel need retries r = .ok (rows, failed, att, r2) →
      rows.length = need ∧ att = need + failed ∧ failed ≤ retries := by
  intro fuel
  induction fuel with
  | zero =>
      intro need retries r rows failed att r2 h
      match need with
      | 0 =>
          simp [saLoop] at h
          obtain ⟨h1, h2, h3, _⟩ := h
          subst h1; subst h2; subst h3
          simp
      | _ + 1 => simp [saLoop] at h
  | succ fuel ih =>
      intro need retries r rows failed att r2 h
      match need with
      | 0 =>
          simp [saLoop] at h
          obtain ⟨h1, h2, h3, _⟩ := h
          subst h1; subst h2; subst h3
          simp
      | need + 1 =>
          simp only [saLoop] at h
          cases ha : (saAttempt sa base r).1 with
          | ok row =>
              rw [ha] at h
              cases hrec : saLoop sa base fuel need retries (saAttempt sa base r).2 with
              | ok quad =>
                  obtain ⟨rows2, failed2, att2, r3⟩ := quad
                  rw [hrec] at h
                  simp at h
                  obtain ⟨h1, h2, h3, _⟩ := h
                  obtain ⟨hl, hatt, hfail⟩ := ih need retries _ rows2 failed2 att2 r3 hrec
                  subst h1; subst h2; subst h3
                  refine ⟨by simp [hl], by omega, hfail⟩
              | error e => rw [hrec] at h; simp at h
          | error e =>
              rw [ha] at h
              cases e with
              | modelEvaluationError msg =>
                  cases retries with
                  | zero => simp at h
                  | succ retries2 =>
                      simp only [] at h
                      cases hrec : saLoop sa base fuel (need + 1) retries2 (saAttempt sa base r).2 with
                      | ok quad =>
                          obtain ⟨rows2, failed2, att2, r3⟩ := quad
                          rw [hrec] at h
                          simp at h
                          obtain ⟨h1, h2, h3, _⟩ := h
                          obtain ⟨hl, hatt, hfail⟩ := ih (need + 1) retries2 _ rows2 failed2 att2 r3 hrec
                          subst h1; subst h2; subst h3
                          refine ⟨hl, by omega, by omega⟩
                      | error e2 => rw [hrec] at h; simp at h
              | otherError msg => simp at h

/-- Folding addition equals the list sum. -/
theorem foldl_add_eq_sum (xs : List ℚ) (c : ℚ) :
    xs.foldl (fun a b => a + b) c = c + xs.sum := by
  induction xs generalizing c with
  | nil => simp
  | cons x t ih => simp [ih]; ring

/-- Folding addition of squares equals the sum of squares. -/
theorem foldl_addsq_eq_sum (xs : List ℚ) (c : ℚ) :
    xs.foldl (fun a b => a + b * b) c = c + (xs.map fun x => x * x).sum := by
  induction xs generalizing c with
  | nil => simp
  | cons x t ih => simp [ih]; ring

/-- The running minimum is attained by one of the values. -/
theorem foldl_min_mem (xs : List ℚ) (x : ℚ) : xs.foldl min x ∈ x :: xs := by
  induction xs generalizing x with
  | nil => simp
  | cons y t ih =>
      simp only [List.foldl_cons]
      have h := ih (min x y)
      rcases List.mem_cons.mp h with h2 | h2
      · rw [h2]
        rcases min_choice x y with hc | hc
        · rw [hc]; exact List.mem_cons_self _ _
        · rw [hc]; exact List.mem_cons_of_mem _ (List.mem_cons_self _ _)
      · exact List.mem_cons_of_mem _ (List.mem_cons_of_mem _ h2)

/-- The running minimum is a lower bound of all the values. -/
theorem foldl_min_le (xs : List ℚ) (x : ℚ) : ∀ y ∈ x :: xs, xs.foldl min x ≤ y := by
  induction xs generalizing x with
  | nil =>
      intro y hy
      simp at hy
      simp [hy]
  | cons z t ih =>
      intro y hy
      simp only [List.foldl_cons]
      rcases List.mem_cons.mp hy with h2 | h2
      · subst h2
        exact le_trans (ih (min y z) (min y z) (List.mem_cons_self _ _)) (min_le_left _ _)
      · rcases List.mem_cons.mp h2 with h3 | h3
        · subst h3
          exact le_trans (ih (min x y) (min x y) (List.mem_cons_self _ _)) (min_le_right _ _)
        · exact ih (min x z) y (List.mem_cons_of_mem _ h3)

/-- The running maximum is attained by one of the values. -/
theorem foldl_max_mem (xs : List ℚ) (x : ℚ) : xs.foldl max x ∈ x :: xs := by
  induction xs generalizing x with
  | nil => simp
  | cons y t ih =>
      simp only [List.foldl_cons]
      have h := ih (max x y)
      rcases List.mem_cons.mp h with h2 | h2
      · rw [h2]
        rcases max_choice x y with hc | hc
        · rw [hc]; exact List.mem_cons_self _ _
        · rw [hc]; exact List.mem_cons_of_mem _ (List.mem_cons_self _ _)
      · exact List.mem_cons_of_mem _ (List.mem_cons_of_mem _ h2)

/-- The running maximum is an upper bound of all the values. -/
theorem foldl_max_le (xs : List ℚ) (x : ℚ) : ∀ y ∈ x :: xs, y ≤ xs.foldl max x := by
  induction xs generalizing x with
  | nil =>
      intro y hy
      simp at hy
      simp [hy]
  | cons z t ih =>
      intro y hy
      simp only [List.foldl_cons]
      rcases List.mem_cons.mp hy with h2 | h2
      · subst h2
        exact le_trans (le_max_left _ _) (ih (max y z) (max y z) (List.mem_cons_self _ _))
      · rcases List.mem_cons.mp h2 with h3 | h3
        · subst h3
          exact le_trans (le_max_right _ _) (ih (max x y) (max x y) (List.mem_cons_self _ _))
        · exact ih (max x z) y (List.mem_cons_of_mem _ h3)

/-- Closed-form mean of a sample list. -/
def listMean (xs : List ℚ) : ℚ := xs.sum / (xs.length : ℚ)

/-- Closed-form (population) variance of a sample list: the mean squared
deviation from the mean. -/
def listVariance (xs : List ℚ) : ℚ :=
  ((xs.map fun x => (x - listMean xs) ^ 2).sum) / (xs.length : ℚ)

/-- Expansion of the sum of squared deviations. -/
theorem sum_sq_dev (xs : List ℚ) (mu : ℚ) :
    (xs.map fun x => (x - mu) ^ 2).sum =
      (xs.map fun x => x * x).sum - 2 * mu * xs.sum + (xs.length : ℚ) * mu ^ 2 := by
  induction xs with
  | nil => simp
  | cons x t ih =>
      simp only [List.map_cons, List.sum_cons, ih, List.length_cons]
      push_cast
      ring

/-- The raw sample list is retained untouched. -/
theorem computeStats_allV (xs : List ℚ) : (computeStats xs).allV = xs := by
  cases xs <;> simp [computeStats]

/-- The one-pass aggregation agrees with the closed forms: attained min
and max bounds, the mean, and the mean-squared-deviation variance. -/
theorem computeStats_spec (xs : List ℚ) (hne : xs ≠ []) :
    ((computeStats xs).minV ∈ xs ∧ ∀ y ∈ xs, (computeStats xs).minV ≤ y) ∧
    ((computeStats xs).maxV ∈ xs ∧ ∀ y ∈ xs, y ≤ (computeStats xs).maxV) ∧
    (computeStats xs).avg = listMean xs ∧
    (computeStats xs).varV = listVariance xs := by
  match xs with
  | [] => exact absurd rfl hne
  | x :: rest =>
      have hlen : ((x :: rest).length : ℚ) ≠ 0 := by
        simp only [List.length_cons]
        push_cast
        positivity
      refine ⟨⟨?_, ?_⟩, ⟨?_, ?_⟩, ?_, ?_⟩
      · simpa [computeStats] using foldl_min_mem rest x
      · simpa [computeStats] using foldl_min_le rest x
      · simpa [computeStats] using foldl_max_mem rest x
      · simpa [computeStats] using foldl_max_le rest x
      · simp [computeStats, listMean, foldl_add_eq_sum]
      · simp only [computeStats, listVariance, listMean, foldl_add_eq_sum,
          foldl_addsq_eq_sum, sum_sq_dev, zero_add]
        field_simp
        ring

/-- Every labelled statistics entry is the aggregation of some column of
the success rows. -/
theorem statsList_lookup (rows : List (List ℚ)) :
    ∀ (ds : List OutDecl) (i : Nat) (lbl : String) (st : Stats),
      lookupKV lbl (statsList rows ds i) = some st →
      ∃ j, st = computeStats (column rows j) := by
  intro ds
  induction ds with
  | nil =>
      intro i lbl st h
      simp [statsList, lookupKV] at h
  | cons d t ih =>
      intro i lbl st h
      simp only [statsList, lookupKV] at h
      by_cases he : lbl = d.label
      · simp [he] at h
        exact ⟨i, h.symm⟩
      · simp [he] at h
        exact ih (i + 1) lbl st h

/-- C3: after a successful `SensitivityAnalyser.run()`, every declared
output's reported min, max, average and variance equal the closed-form
minimum, maximum, mean and variance of its recorded samples; exactly
`numberOfSamples` successful samples are recorded per output, and each
evaluation failure added one attempt and one failed-run count without
consuming a sample, so the attempt total is the sample quota plus the
failed-run counter (which stays within the retry budget). -/
theorem sensitivityAnalyser_run_aggregation (sa : SensitivityAnalyser) (base : Model)
    (r : Nat) (out : SAOutputs) (r2 : Nat)
    (hrun : sa.run base r = .ok (out, r2)) (hN : 0 < sa.numberOfSamples) :
    out.attempts = sa.numberOfSamples + out.failedRuns ∧
    out.failedRuns ≤ sa.retryCeiling ∧
    ∀ lbl st, lookupKV lbl out.stats = some st →
      st.allV.length = sa.numberOfSamples ∧
      (st.minV ∈ st.allV ∧ ∀ y ∈ st.allV, st.minV ≤ y) ∧
      (st.maxV ∈ st.allV ∧ ∀ y ∈ st.allV, y ≤ st.maxV) ∧
      st.avg = listMean st.allV ∧
      st.varV = listVariance st.allV := by
  simp only [SensitivityAnalyser.run] at hrun
  cases hloop : saLoop sa base (sa.numberOfSamples + sa.retryCeiling)
      sa.numberOfSamples sa.retryCeiling r with
  | error e => rw [hloop] at hrun; simp at hrun
  | ok quad =>
      obtain ⟨rows, failed, att, r3⟩ := quad
      rw [hloop] at hrun
      simp at hrun
      obtain ⟨hout, hr2⟩ := hrun
      obtain ⟨hl, hatt, hfail⟩ := saLoop_ok_spec sa base _ _ _ _ _ _ _ _ hloop
      subst hout
      refine ⟨by simpa using hatt, by simpa using hfail, ?_⟩
      intro lbl st hst
      obtain ⟨j, hj⟩ := statsList_lookup rows sa.outDecls 0 lbl st hst
      subst hj
      have hcol : (column rows j).length = sa.numberOfSamples := by
        simp [column, hl]
      have hnem : column rows j ≠ [] := by
        intro hc
        rw [hc] at hcol
        simp at hcol
        omega
      have hspec := computeStats_spec (column rows j) hnem
      rw [computeStats_allV]
      exact ⟨hcol, hspec.1, hspec.2.1, hspec.2.2.1, hspec.2.2.2⟩

/-- Concrete analyser for the C3 witness: one uniform variable `x` in
`[0, 10)`, one declared output `y` observing `x`, two samples requested,
two retries allowed, and a model that raises a `ModelEvaluationError`
whenever `x < 5`. -/
def wSA : SensitivityAnalyser :=
  ⟨[⟨"x", fun _ => Gen.range 0 10⟩], [⟨"y", "x"⟩], 2, 2, [],
    fun m =>
      match lookupKV "x" m with
      | some (Val.intV n) =>
          if n < 5 then .error (.modelEvaluationError "bad x") else .ok m
      | _ => .ok m⟩

/-- Result of running the C3 witness analyser from seed 9 (the first
attempt draws `x = 2` and fails, the next two draw 5 and 9 and succeed). -/
def wSARes : SAOutputs × Nat := ((wSA.run [] 9).toOption).getD (⟨[], 0, 0⟩, 0)

/-- Witness for C3: the witness analyser's run succeeds from seed 9 after
one failed and two successful evaluations, and its reported statistics
obey the closed forms. -/
theorem sensitivityAnalyser_run_aggregation_witness :
    wSA.run [] 9 = Except.ok (wSARes.1, wSARes.2) ∧
    0 < wSA.numberOfSamples ∧
    wSARes.1.failedRuns = 1 ∧
    (wSARes.1.attempts = wSA.numberOfSamples + wSARes.1.failedRuns ∧
      wSARes.1.failedRuns ≤ wSA.retryCeiling ∧
      ∀ lbl st, lookupKV lbl wSARes.1.stats = some st →
        st.allV.length = wSA.numberOfSamples ∧
        (st.minV ∈ st.allV ∧ ∀ y ∈ st.allV, st.minV ≤ y) ∧
        (st.maxV ∈ st.allV ∧ ∀ y ∈ st.allV, y ≤ st.maxV) ∧
        st.avg = listMean st.allV ∧
        st.varV = listVariance st.allV) :=
  ⟨rfl, by decide, by decide,
    sensitivityAnalyser_run_aggregation wSA [] 9 wSARes.1 wSARes.2 rfl (by decide)⟩

/-- Statistical measures selectable in a compound objective item
(`"avg"`, `"var"`, `"min"`, `"max"`). -/
inductive StatKind
  | avgK
  | varK
  | minK
  | maxK
deriving DecidableEq

/-- Modelled from the spec: the `item` of an `add_objective` declaration -
either a plain attribute of the evaluated model, or, when the target is a
SensitivityAnalyser, a compound `(label, measure)` item resolved against
the analyser's own output statistics. -/
inductive ObjItem
  | plain (key : String)
  | compound (label : String) (stat : StatKind)
deriving DecidableEq

/-- Modelled from the spec: an objective declaration
(`add_objective(selector, attribute, minimise|maximise, weight)`). -/
structure Objective where
  item : ObjItem
  minimise : Bool
  weight : ℚ
deriving DecidableEq

/-- A fitness entry: a finite score, or the defined "worst possible"
sentinel assigned when evaluation fails (an infinite value in Python). -/
inductive FitVal
  | val (q : ℚ)
  | worst
deriving DecidableEq

/-- Modelled from the spec: an Individual - its drawn variable values in
declaration order, its fitness vector (one entry per declared objective)
and the optional recorded evaluation error. -/
structure Individual where
  values : List (String × Val)
  fitness : List FitVal
  error : Option String
deriving DecidableEq

/-- Default individual, used only to totalise list indexing. -/
def dInd : Individual := ⟨[], [], none⟩

/-- Modelled from the spec: the Optimiser's evaluation target - a raw
model root (with its external evaluation), or a nested
SensitivityAnalyser. -/
inductive Target
  | modelT (baseline : Model) (evalModel : Model → Except EvalErr Model)
  | analyserT (sa : SensitivityAnalyser)

/-- Select one statistical measure from a per-output statistics record. -/
def Stats.statOf (st : Stats) : StatKind → ℚ
  | .avgK => st.avg
  | .varK => st.varV
  | .minK => st.minV
  | .maxK => st.maxV

/-- Modelled from the spec: `apply_to_facility` - write every stored
variable value into the live model, in declaration order, without
redrawing. -/
def applyValues (vs : List (String × Val)) (m : Model) : Model :=
  vs.foldl (fun acc p => setValue p.1 p.2 acc) m

/-- The "worst possible" sentinel fitness vector: one worst entry per
declared objective. -/
def worstFitness (objectives : List Objective) : List FitVal :=
  objectives.map fun _ => FitVal.worst

/-- Extract the declared objective values from an evaluated model. -/
def extractModelFit (objectives : List Objective) (m : Model) : List FitVal :=
  objectives.map fun o =>
    match o.item with
    | .plain k => .val (readOut m k)
    | .compound _ _ => .worst

/-- Resolve the declared objectives against a sensitivity run's output
statistics (compound `(label, measure)` items). -/
def extractSAFit (objectives : List Objective) (out : SAOutputs) : List FitVal :=
  objectives.map fun o =>
    match o.item with
    | .plain _ => .worst
    | .compound lbl stat =>
        match lookupKV lbl out.stats with
        | some st => .val (st.statOf stat)
        | none => .worst

/-- Modelled from the spec: one fitness evaluation - apply the
Individual's values to the target, run it, and extract the declared
objective values.  A `ModelEvaluationError` downgrades the Individual to
the worst-possible fitness and records the error instead of aborting; any
other error propagates.  Returns the scored Individual, the rng state and
the number of inner model evaluations performed. -/
def evalIndividual (target : Target) (objectives : List Objective)
    (ind : Individual) (r : Nat) : Except String (Individual × Nat × Nat) :=
  match target with
  | .modelT baseline ev =>
      match ev (applyValues ind.values baseline) with
      | .ok m2 =>
          .ok ({ ind with fitness := extractModelFit objectives m2, error := none }, r, 1)
      | .error (.modelEvaluationError msg) =>
          .ok ({ ind with fitness := worstFitness objectives, error := some msg }, r, 1)
      | .error (.otherError msg) => .error msg
  | .analyserT sa =>
      match sa.run (applyValues ind.values sa.baseline) r with
      | .ok (out, r2) =>
          .ok ({ ind with fitness := extractSAFit objectives out, error := none }, r2,
            out.attempts)
      | .error .retryCeilingExhausted => .error "retry ceiling exhausted"
      | .error (.fatal msg) => .error msg

/-- Modelled from the spec: evaluate every Individual of a generation in
order, threading the rng state. -/
def evalPopulation (target : Target) (objectives : List Objective) :
    List Individual → Nat → Except String (List Individual × Nat)
  | [], r => .ok ([], r)
  | ind :: rest, r =>
      match evalIndividual target objectives ind r with
      | .ok (ind2, r2, _) =>
          match evalPopulation target objectives rest r2 with
          | .ok (pop2, r3) => .ok (ind2 :: pop2, r3)
          | .error e => .error e
      | .error e => .error e

/-- C7: during an Optimiser generation, a `ModelEvaluationError` raised by
the model run for one Individual downgrades exactly that Individual to the
worst-possible sentinel fitness, records the error on it, and lets the
generation's evaluation run to completion over the whole population; an
error of any other kind is not recovered - it aborts the evaluation. -/
theorem optimiser_eval_error_handling (baseline : Model)
    (ev : Model → Except EvalErr Model) (objs : List Objective)
    (pop : List Individual) (r : Nat) :
    ((∀ ind ∈ pop, ∀ msg,
        ev (applyValues ind.values baseline) ≠ Except.error (.otherError msg)) →
      ∃ res r2, evalPopulation (.modelT baseline ev) objs pop r = .ok (res, r2) ∧
        res.length = pop.length ∧
        ∀ i, i < pop.length → ∀ msg,
          ev (applyValues (pop.getD i dInd).values baseline) =
            Except.error (.modelEvaluationError msg) →
          (res.getD i dInd).fitness = worstFitness objs ∧
          (res.getD i dInd).error = some msg) ∧
    (∀ ind ∈ pop, ∀ msg,
      ev (applyValues ind.values baseline) = Except.error (.otherError msg) →
      ∃ e, evalPopulation (.modelT baseline ev) objs pop r = .error e) := by
  induction pop generalizing r with
  | nil =>
      refine ⟨fun _ => ⟨[], r, rfl, rfl, ?_⟩, ?_⟩
      · intro i hi
        simp at hi
      · intro ind hind
        simp at hind
  | cons ind rest ih =>
      constructor
      · intro hno
        cases hev : ev (applyValues ind.values baseline) with
        | ok m2 =>
            obtain ⟨res, r2, hres, hlen, hworst⟩ :=
              (ih r).1 (fun i hi msg => hno i (List.mem_cons_of_mem _ hi) msg)
            refine ⟨{ ind with fitness := extractModelFit objs m2, error := none } :: res,
              r2, ?_, by simp [hlen], ?_⟩
            · simp [evalPopulation, evalIndividual, hev, hres]
            · intro i hi msg hmsg
              match i with
              | 0 =>
                  simp at hmsg
                  rw [hev] at hmsg
                  simp at hmsg
              | i + 1 =>
                  simp only [List.getD_cons_succ] at hmsg
                  have := hworst i (by simpa using hi) msg hmsg
                  simpa only [List.getD_cons_succ] using this
        | error e =>
            cases e with
            | modelEvaluationError msg0 =>
                obtain ⟨res, r2, hres, hlen, hworst⟩ :=
                  (ih r).1 (fun i hi msg => hno i (List.mem_cons_of_mem _ hi) msg)
                refine ⟨{ ind with fitness := worstFitness objs, error := some msg0 } :: res,
                  r2, ?_, by simp [hlen], ?_⟩
                · simp [evalPopulation, evalIndividual, hev, hres]
                · intro i hi msg hmsg
                  match i with
                  | 0 =>
                      simp at hmsg
                      rw [hev] at hmsg
                      simp at hmsg
                      subst hmsg
                      simp
                  | i + 1 =>
                      simp only [List.getD_cons_succ] at hmsg
                      have := hworst i (by simpa using hi) msg hmsg
                      simpa only [List.getD_cons_succ] using this
            | otherError msg0 =>
                exact absurd hev (hno ind (List.mem_cons_self _ _) msg0)
      · intro ind2 hind2 msg hmsg
        rcases List.mem_cons.mp hind2 with hh | hh
        · subst hh
          refine ⟨msg, ?_⟩
          simp [evalPopulation, evalIndividual, hmsg]
        · cases hev : ev (applyValues ind.values baseline) with
          | ok m2 =>
              obtain ⟨e, he⟩ := (ih r).2 ind2 hh msg hmsg
              exact ⟨e, by simp [evalPopulation, evalIndividual, hev, he]⟩
          | error e0 =>
              cases e0 with
              | modelEvaluationError msg0 =>
                  obtain ⟨e, he⟩ := (ih r).2 ind2 hh msg hmsg
                  exact ⟨e, by simp [evalPopulation, evalIndividual, hev, he]⟩
              | otherError msg0 =>
                  exact ⟨msg0, by simp [evalPopulation, evalIndividual, hev]⟩

/-- Concrete model evaluation for the C7 witness: raises a
`ModelEvaluationError` when `mode = 1`, another error kind when
`mode = 2`, and succeeds otherwise. -/
def wEv : Model → Except EvalErr Model :=
  fun m =>
    match lookupKV "mode" m with
    | some (Val.intV 1) => .error (.modelEvaluationError "boom")
    | some (Val.intV 2) => .error (.otherError "ugh")
    | _ => .ok m

/-- A C7 witness Individual whose evaluation succeeds. -/
def wGood : Individual := ⟨[("mode", Val.intV 0)], [], none⟩

/-- A C7 witness Individual whose evaluation raises a `ModelEvaluationError`. -/
def wBad : Individual := ⟨[("mode", Val.intV 1)], [], none⟩

/-- A C7 witness Individual whose evaluation raises a non-recoverable error. -/
def wUgly : Individual := ⟨[("mode", Val.intV 2)], [], none⟩

/-- C7 witness population: one healthy and one failing Individual. -/
def wPop : List Individual := [wGood, wBad]

/-- C7 witness objectives: minimise the plain `mode` attribute. -/
def wObjs : List Objective := [⟨.plain "mode", true, 1⟩]

/-- Witness for C7: evaluating `wPop` (whose second Individual raises a
`ModelEvaluationError`) completes over the whole generation with that
Individual downgraded to the sentinel fitness and its error recorded,
while a population whose Individual raises a different error kind aborts
the evaluation. -/
theorem optimiser_eval_error_handling_witness :
    (∃ res r2, evalPopulation (.modelT [] wEv) wObjs wPop 0 = .ok (res, r2) ∧
      res.length = wPop.length ∧
      ∀ i, i < wPop.length → ∀ msg,
        wEv (applyValues (wPop.getD i dInd).values []) =
          Except.error (.modelEvaluationError msg) →
        (res.getD i dInd).fitness = worstFitness wObjs ∧
        (res.getD i dInd).error = some msg) ∧
    (∃ e, evalPopulation (.modelT [] wEv) wObjs [wUgly] 0 = .error e) :=
  ⟨(optimiser_eval_error_handling [] wEv wObjs wPop 0).1
      (by
        intro ind hind msg
        simp only [wPop, List.mem_cons, List.not_mem_nil, or_false] at hind
        rcases hind with h | h
        · subst h
          intro hc
          exact Except.noConfusion hc
        · subst h
          intro hc
          injection hc with hc2
          exact EvalErr.noConfusion hc2),
    (optimiser_eval_error_handling [] wEv wObjs [wUgly] 0).2 wUgly
      (List.mem_singleton.mpr rfl) "ugh" rfl⟩

/-- One sampling attempt cannot fail when the model never fails. -/
theorem saAttempt_nofail (sa : SensitivityAnalyser) (base : Model) (r : Nat)
    (hok : ∀ m, ∃ m2, sa.evalModel m = .ok m2) :
    ∃ row, saAttempt sa base r = (.ok row, (drawVars sa.varDecls base r).2.2) := by
  obtain ⟨m2, hm2⟩ := hok (drawVars sa.varDecls base r).2.1
  exact ⟨sa.outDecls.map fun o => readOut m2 o.key, by simp [saAttempt, hm2]⟩

/-- With a never-failing model, the sampling loop records its quota with
zero failures and exactly one attempt per requested sample. -/
theorem saLoop_nofail (sa : SensitivityAnalyser) (base : Model)
    (hok : ∀ m, ∃ m2, sa.evalModel m = .ok m2) :
    ∀ need fuel retries r, need ≤ fuel →
      ∃ rows r2, saLoop sa base fuel need retries r = .ok (rows, 0, need, r2) := by
  intro need
  induction need with
  | zero =>
      intro fuel retries r _
      exact ⟨[], r, by cases fuel <;> simp [saLoop]⟩
  | succ need ih =>
      intro fuel retries r hle
      cases fuel with
      | zero => omega
      | succ fuel2 =>
          obtain ⟨row, hrow⟩ := saAttempt_nofail sa base r hok
          obtain ⟨rows, r2, hrec⟩ :=
            ih fuel2 retries ((drawVars sa.varDecls base r).2.2) (by omega)
          exact ⟨row :: rows, r2, by simp [saLoop, hrow, hrec]⟩

/-- A label declared among the outputs is found in the statistics list,
bound to the aggregation of some column of the success rows. -/
theorem statsList_mem_lookup (rows : List (List ℚ)) :
    ∀ (ds : List OutDecl) (i : Nat) (lbl : String), lbl ∈ ds.map OutDecl.label →
      ∃ j, lookupKV lbl (statsList rows ds i) = some (computeStats (column rows j)) := by
  intro ds
  induction ds with
  | nil =>
      intro i lbl h
      simp at h
  | cons d t ih =>
      intro i lbl h
      by_cases he : lbl = d.label
      · exact ⟨i, by simp [statsList, lookupKV, he]⟩
      · have h2 : lbl ∈ t.map OutDecl.label := by
          simp only [List.map_cons, List.mem_cons] at h
          rcases h with h | h
          · exact absurd h he
          · exact h
        obtain ⟨j, hj⟩ := ih (i + 1) lbl h2
        exact ⟨j, by simp [statsList, lookupKV, he, hj]⟩

/-- The one-pass average always equals the closed-form mean. -/
theorem computeStats_avg (xs : List ℚ) : (computeStats xs).avg = listMean xs := by
  cases xs with
  | nil => simp [computeStats, listMean]
  | cons x rest => simp [computeStats, listMean, foldl_add_eq_sum]

/-- C2: when the Optimiser's evaluation target is a SensitivityAnalyser
and the model never fails, scoring an Individual triggers a full
`SensitivityAnalyser.run()` that performs exactly `numberOfSamples`
successful inner model evaluations (no failed runs), and the Individual's
fitness for an objective declared with the compound item `(label, avg)`
equals the analyser's reported average for that label, which is the mean
of the `numberOfSamples` recorded samples. -/
theorem optimiser_nested_sensitivity (sa : SensitivityAnalyser)
    (objectives : List Objective) (ind : Individual) (r : Nat)
    (j : Nat) (lbl : String) (mini : Bool) (w : ℚ)
    (hok : ∀ m, ∃ m2, sa.evalModel m = .ok m2)
    (hobj : objectives.get? j = some ⟨.compound lbl .avgK, mini, w⟩)
    (hlbl : lbl ∈ sa.outDecls.map OutDecl.label) :
    ∃ out r2 ind2,
      sa.run (applyValues ind.values sa.baseline) r = .ok (out, r2) ∧
      evalIndividual (.analyserT sa) objectives ind r = .ok (ind2, r2, out.attempts) ∧
      out.attempts = sa.numberOfSamples ∧
      out.failedRuns = 0 ∧
      ∃ st, lookupKV lbl out.stats = some st ∧
        st.allV.length = sa.numberOfSamples ∧
        ind2.fitness.get? j = some (.val st.avg) ∧
        st.avg = listMean st.allV := by
  obtain ⟨rows, r2, hloop⟩ := saLoop_nofail sa (applyValues ind.values sa.baseline) hok
    sa.numberOfSamples (sa.numberOfSamples + sa.retryCeiling) sa.retryCeiling r (by omega)
  have hlen : rows.length = sa.numberOfSamples :=
    (saLoop_ok_spec _ _ _ _ _ _ _ _ _ _ hloop).1
  have hrun : sa.run (applyValues ind.values sa.baseline) r =
      .ok (⟨statsList rows sa.outDecls 0, 0, sa.numberOfSamples⟩, r2) := by
    simp [SensitivityAnalyser.run, hloop]
  obtain ⟨jj, hjj⟩ := statsList_mem_lookup rows sa.outDecls 0 lbl hlbl
  refine ⟨⟨statsList rows sa.outDecls 0, 0, sa.numberOfSamples⟩, r2,
    { ind with
        fitness := extractSAFit objectives ⟨statsList rows sa.outDecls 0, 0, sa.numberOfSamples⟩,
        error := none },
    hrun, ?_, rfl, rfl, ?_⟩
  · simp [evalIndividual, hrun]
  · refine ⟨computeStats (column rows jj), hjj, ?_, ?_, ?_⟩
    · rw [computeStats_allV]
      simp [column, hlen]
    · have hobj2 : objectives[j]? = some ⟨.compound lbl .avgK, mini, w⟩ := by
        simpa using hobj
      simp only [extractSAFit, List.get?_eq_getElem?, List.getElem?_map, hobj2]
      simp [hjj, Stats.statOf]
    · rw [computeStats_allV]
      exact computeStats_avg _

/-- Concrete analyser for the C2 witness: one uniform variable, one
declared output labelled `CoG` observing it, two samples, and a model
that never fails. -/
def wSA2 : SensitivityAnalyser :=
  ⟨[⟨"x", fun _ => Gen.range 0 10⟩], [⟨"CoG", "x"⟩], 2, 0, [], fun m => .ok m⟩

/-- C2 witness objectives: minimise the average of the `CoG` output. -/
def wObjs2 : List Objective := [⟨.compound "CoG" .avgK, true, 1⟩]

/-- Witness for C2: scoring the default Individual against `wSA2` runs the
analyser for exactly its two samples with no failures, and its fitness is
the reported `CoG` average, the mean of the two recorded samples. -/
theorem optimiser_nested_sensitivity_witness :
    ∃ out r2 ind2,
      wSA2.run (applyValues dInd.values wSA2.baseline) 1 = .ok (out, r2) ∧
      evalIndividual (.analyserT wSA2) wObjs2 dInd 1 = .ok (ind2, r2, out.attempts) ∧
      out.attempts = wSA2.numberOfSamples ∧
      out.failedRuns = 0 ∧
      ∃ st, lookupKV "CoG" out.stats = some st ∧
        st.allV.length = wSA2.numberOfSamples ∧
        ind2.fitness.get? 0 = some (.val st.avg) ∧
        st.avg = listMean st.allV :=
  optimiser_nested_sensitivity wSA2 wObjs2 dInd 1 0 "CoG" true 1
    (fun m => ⟨m, rfl⟩) rfl (by decide)

/-- Fitness of an Individual on objective `i` (worst when absent). -/
def fitAt (ind : Individual) (i : Nat) : FitVal := ind.fitness.getD i FitVal.worst

/-- Modelled from the spec: "at least as good as" on one objective - lower
is better when minimising, higher when maximising, and the worst sentinel
is beaten by every finite value. -/
def FitVal.betterEq (minimise : Bool) : FitVal → FitVal → Bool
  | .worst, .worst => true
  | .worst, .val _ => false
  | .val _, .worst => true
  | .val a, .val b => if minimise then decide (a ≤ b) else decide (b ≤ a)

/-- The comparison is reflexive. -/
theorem betterEq_refl (mini : Bool) (a : FitVal) : FitVal.betterEq mini a a = true := by
  cases a <;> cases mini <;> simp [FitVal.betterEq]

/-- The comparison is total. -/
theorem betterEq_total (mini : Bool) (a b : FitVal) :
    FitVal.betterEq mini a b = true ∨ FitVal.betterEq mini b a = true := by
  cases a <;> cases b <;> cases mini <;> simp [FitVal.betterEq] <;> exact le_total _ _

/-- The comparison is transitive. -/
theorem betterEq_trans (mini : Bool) (a b c : FitVal)
    (h1 : FitVal.betterEq mini a b = true) (h2 : FitVal.betterEq mini b c = true) :
    FitVal.betterEq mini a c = true := by
  cases a <;> cases b <;> cases c <;> cases mini <;>
    simp [FitVal.betterEq] at h1 h2 ⊢ <;>
    first
    | exact le_trans h1 h2
    | exact le_trans h2 h1

/-- Modelled from the spec: the best Individual for one objective taken
alone - a stable fold keeping the earliest Individual that is at least as
good as every later one. -/
def pickBest (mini : Bool) (i : Nat) : List Individual → Option Individual
  | [] => none
  | x :: xs =>
      some (xs.foldl
        (fun b y => if FitVal.betterEq mini (fitAt b i) (fitAt y i) then b else y) x)

/-- The extreme fitness value for one objective over a population,
computed independently of which Individual attains it. -/
def bestValue (mini : Bool) (i : Nat) : List Individual → FitVal
  | [] => .worst
  | x :: xs =>
      xs.foldl
        (fun acc y => if FitVal.betterEq mini acc (fitAt y i) then acc else fitAt y i)
        (fitAt x i)

/-- Helper for `bestIndividuals`: one pick per objective, tracking the
objective index. -/
def bestIndsAux (pop : List Individual) : List Objective → Nat → List Individual
  | [], _ => []
  | o :: os, i => (pickBest o.minimise i pop).getD dInd :: bestIndsAux pop os (i + 1)

/-- Modelled from the spec: `outputs['bestIndividuals']` - one entry per
declared objective, each the per-objective best over the population. -/
def bestIndividuals (objectives : List Objective) (pop : List Individual) :
    List Individual :=
  bestIndsAux pop objectives 0

/-- Helper for `bestObjectiveValues`: one extreme value per objective. -/
def bestValsAux (pop : List Individual) : List Objective → Nat → List FitVal
  | [], _ => []
  | o :: os, i => bestValue o.minimise i pop :: bestValsAux pop os (i + 1)

/-- Modelled from the spec: `outputs['bestObjectiveValues']` - the extreme
fitness value reached for each declared objective. -/
def bestObjectiveValues (objectives : List Objective) (pop : List Individual) :
    List FitVal :=
  bestValsAux pop objectives 0

/-- The best-pick fold returns one of its candidates. -/
theorem pickFold_mem (mini : Bool) (i : Nat) :
    ∀ (xs : List Individual) (x : Individual),
      xs.foldl (fun b y => if FitVal.betterEq mini (fitAt b i) (fitAt y i) then b else y) x
        ∈ x :: xs := by
  intro xs
  induction xs with
  | nil => intro x; simp
  | cons y t ih =>
      intro x
      simp only [List.foldl_cons]
      by_cases hc : FitVal.betterEq mini (fitAt x i) (fitAt y i) = true
      · rw [if_pos hc]
        rcases List.mem_cons.mp (ih x) with h | h
        · rw [h]; exact List.mem_cons_self _ _
        · exact List.mem_cons_of_mem _ (List.mem_cons_of_mem _ h)
      · rw [if_neg hc]
        rcases List.mem_cons.mp (ih y) with h | h
        · rw [h]; exact List.mem_cons_of_mem _ (List.mem_cons_self _ _)
        · exact List.mem_cons_of_mem _ (List.mem_cons_of_mem _ h)

/-- The best-pick fold is at least as good as every candidate on the
given objective. -/
theorem pickFold_le (mini : Bool) (i : Nat) :
    ∀ (xs : List Individual) (x : Individual), ∀ z ∈ x :: xs,
      FitVal.betterEq mini
        (fitAt (xs.foldl
          (fun b y => if FitVal.betterEq mini (fitAt b i) (fitAt y i) then b else y) x) i)
        (fitAt z i) = true := by
  intro xs
  induction xs with
  | nil =>
      intro x z hz
      rcases List.mem_cons.mp hz with h | h
      · subst h; simp [betterEq_refl]
      · simp at h
  | cons y t ih =>
      intro x z hz
      simp only [List.foldl_cons]
      by_cases hc : FitVal.betterEq mini (fitAt x i) (fitAt y i) = true
      · rw [if_pos hc]
        rcases List.mem_cons.mp hz with h | h
        · rw [h]
          exact ih x x (List.mem_cons_self _ _)
        · rcases List.mem_cons.mp h with h2 | h2
          · rw [h2]
            exact betterEq_trans mini _ _ _ (ih x x (List.mem_cons_self _ _)) hc
          · exact ih x z (List.mem_cons_of_mem _ h2)
      · rw [if_neg hc]
        have hyx : FitVal.betterEq mini (fitAt y i) (fitAt x i) = true := by
          rcases betterEq_total mini (fitAt x i) (fitAt y i) with h | h
          · exact absurd h hc
          · exact h
        rcases List.mem_cons.mp hz with h | h
        · rw [h]
          exact betterEq_trans mini _ _ _ (ih y y (List.mem_cons_self _ _)) hyx
        · rcases List.mem_cons.mp h with h2 | h2
          · rw [h2]
            exact ih y y (List.mem_cons_self _ _)
          · exact ih y z (List.mem_cons_of_mem _ h2)

/-- The value fold mirrors the individual fold. -/
theorem bestValueFold_eq (mini : Bool) (i : Nat) :
    ∀ (xs : List Individual) (x : Individual),
      xs.foldl
          (fun acc y => if FitVal.betterEq mini acc (fitAt y i) then acc else fitAt y i)
          (fitAt x i) =
        fitAt (xs.foldl
          (fun b y => if FitVal.betterEq mini (fitAt b i) (fitAt y i) then b else y) x) i := by
  intro xs
  induction xs with
  | nil => intro x; simp
  | cons y t ih =>
      intro x
      simp only [List.foldl_cons]
      by_cases hc : FitVal.betterEq mini (fitAt x i) (fitAt y i) = true
      · rw [if_pos hc, if_pos hc]
        exact ih x
      · rw [if_neg hc, if_neg hc]
        exact ih y

/-- The independently computed extreme value is the fitness of the picked
best Individual. -/
theorem bestValue_eq_pickBest (mini : Bool) (i : Nat) (pop : List Individual)
    (b : Individual) (h : pickBest mini i pop = some b) :
    bestValue mini i pop = fitAt b i := by
  cases pop with
  | nil => simp [pickBest] at h
  | cons x xs =>
      simp only [pickBest, Option.some.injEq] at h
      subst h
      simp only [bestValue]
      exact bestValueFold_eq mini i xs x

/-- Modelled from the spec: structural equality of two populations for
replication testing - equal iff at every position the Individuals have
equal variable values and equal fitness, order-sensitively. -/
def popEq : List Individual → List Individual → Bool
  | [], [] => true
  | p :: ps, q :: qs =>
      (decide (p.values = q.values) && decide (p.fitness = q.fitness)) && popEq ps qs
  | _, _ => false

/-- Structural population equality is reflexive. -/
theorem popEq_refl (p : List Individual) : popEq p p = true := by
  induction p with
  | nil => rfl
  | cons x t ih => simp [popEq, ih]

/-- C9: two populations are structurally equal exactly when they have the
same length and, at every position, the Individuals have equal variable
values and equal fitness; the comparison is order-sensitive over the
population and over each Individual's variables (value lists are compared
as ordered lists). -/
theorem population_equality_structural (p q : List Individual) :
    popEq p q = true ↔
      (p.length = q.length ∧ ∀ i, i < p.length →
        (p.getD i dInd).values = (q.getD i dInd).values ∧
        (p.getD i dInd).fitness = (q.getD i dInd).fitness) := by
  induction p generalizing q with
  | nil =>
      cases q with
      | nil => simp [popEq]
      | cons y qs => simp [popEq]
  | cons x ps ih =>
      cases q with
      | nil => simp [popEq]
      | cons y qs =>
          simp only [popEq, Bool.and_eq_true, decide_eq_true_eq, ih qs,
            List.length_cons]
          constructor
          · rintro ⟨⟨hv, hf⟩, hlen, hrest⟩
            refine ⟨by omega, ?_⟩
            intro i hi
            match i with
            | 0 => exact ⟨hv, hf⟩
            | i + 1 =>
                simp only [List.getD_cons_succ]
                exact hrest i (by omega)
          · rintro ⟨hlen, hall⟩
            refine ⟨?_, by omega, ?_⟩
            · have h0 := hall 0 (by omega)
              simpa using h0
            · intro i hi
              have h2 := hall (i + 1) (by omega)
              simpa only [List.getD_cons_succ] using h2

/-- Modelled from the spec: the Optimiser's run parameters, loaded from
`Optimiser.yaml` (`populationSize`, `maxGenerations`, operator rates as
percentages). -/
structure OptParams where
  populationSize : Nat
  maxGenerations : Nat
  crossoverRate : Nat
  mutationRate : Nat
deriving DecidableEq

/-- Modelled from the spec: the Optimiser's configuration - the evaluation
target, the ordered variable declarations, the ordered objective
declarations and the run parameters. -/
structure OptConfig where
  target : Target
  varDecls : List Variable
  objectives : List Objective
  params : OptParams

/-- Baseline model of the evaluation target, against which Individuals are
drawn and applied. -/
def Target.baseModel : Target → Model
  | .modelT baseline _ => baseline
  | .analyserT sa => sa.baseline

/-- Modelled from the spec: initialise a population of the given size,
each Individual drawn from the declared generators against a fresh
baseline model, threading the rng. -/
def initPop (cfg : OptConfig) : Nat → Nat → List Individual × Nat
  | 0, r => ([], r)
  | n + 1, r =>
      let d := drawVars cfg.varDecls cfg.target.baseModel r
      let rest := initPop cfg n d.2.2
      (⟨d.1, [], none⟩ :: rest.1, rest.2)

/-- Lexicographic comparison of two Individuals over the declared
objectives, used for tournament selection. -/
def betterLexAux (a b : Individual) : List Objective → Nat → Bool
  | [], _ => true
  | o :: os, i =>
      if fitAt a i = fitAt b i then betterLexAux a b os (i + 1)
      else FitVal.betterEq o.minimise (fitAt a i) (fitAt b i)

/-- Modelled from the spec: fitness-based selection of one parent - a
binary tournament between two rng-chosen Individuals. -/
def tournamentPick (objectives : List Objective) (pop : List Individual) (r : Nat) :
    Individual × Nat :=
  let p1 := rngNext r
  let p2 := rngNext p1.2
  let a := pop.getD (p1.1 % pop.length) dInd
  let b := pop.getD (p2.1 % pop.length) dInd
  (if betterLexAux a b objectives 0 then a else b, p2.2)

/-- Modelled from the spec: one-point crossover of two Individuals' value
lists at the given cut. -/
def crossoverInds (a b : Individual) (cut : Nat) : Individual :=
  ⟨a.values.take cut ++ b.values.drop cut, [], none⟩

/-- Modelled from the spec: mutation - redraw one rng-chosen variable from
its generator against the Individual's applied model state. -/
def mutateInd (cfg : OptConfig) (ind : Individual) (r : Nat) : Individual × Nat :=
  match cfg.varDecls with
  | [] => (ind, r)
  | _ :: _ =>
      let p1 := rngNext r
      let d := cfg.varDecls.getD (p1.1 % cfg.varDecls.length) ⟨"", fun _ => Gen.binary⟩
      let m := applyValues ind.values cfg.target.baseModel
      let p2 := rngNext p1.2
      let v := (d.genOf m).drawD p2.1
      (⟨setValue d.key v ind.values, [], none⟩, p2.2)

/-- Modelled from the spec: mandatory whole-Individual repair - walk the
declared variables in order against the live model, keep valid values,
repair invalid ones (surfacing a repair failure), and apply each kept
value before checking the next variable. -/
def repairLoop : List Variable → Model → List (String × Val) →
    Except RepairErr (List (String × Val) × Model)
  | [], m, _ => .ok ([], m)
  | d :: ds, m, vals =>
      let g := d.genOf m
      let v := (lookupKV d.key vals).getD (Val.boolV false)
      match if g.isValid v then Except.ok v else g.repair v with
      | .error e => .error e
      | .ok v2 =>
          match repairLoop ds (setValue d.key v2 m) vals with
          | .ok (rest, m3) => .ok ((d.key, v2) :: rest, m3)
          | .error e => .error e

/-- Modelled from the spec: breed one offspring - select two parents by
tournament, apply crossover and mutation at the configured rates, then
mandatorily repair the result. -/
def breedStep (cfg : OptConfig) (pop : List Individual) (r : Nat) :
    Except RepairErr (Individual × Nat) :=
  let t1 := tournamentPick cfg.objectives pop r
  let t2 := tournamentPick cfg.objectives pop t1.2
  let pc := rngNext t2.2
  let pcut := rngNext pc.2
  let child0 :=
    if pc.1 % 100 < cfg.params.crossoverRate then
      crossoverInds t1.1 t2.1 (pcut.1 % (t1.1.values.length + 1))
    else t1.1
  let pm := rngNext pcut.2
  let step2 :=
    if pm.1 % 100 < cfg.params.mutationRate then mutateInd cfg child0 pm.2
    else (child0, pm.2)
  match repairLoop cfg.varDecls cfg.target.baseModel step2.1.values with
  | .ok (vals, _) => .ok (⟨vals, [], none⟩, step2.2)
  | .error e => .error e

/-- Breed a whole brood of the given size, threading the rng. -/
def breedPop (cfg : OptConfig) (pop : List Individual) :
    Nat → Nat → Except RepairErr (List Individual × Nat)
  | 0, r => .ok ([], r)
  | n + 1, r =>
      match breedStep cfg pop r with
      | .ok (c, r2) =>
          match breedPop cfg pop n r2 with
          | .ok (cs, r3) => .ok (c :: cs, r3)
          | .error e => .error e
      | .error e => .error e

/-- Modelled from the spec: form the next generation - preserve the
per-objective best Individuals (elitism) and fill up with bred offspring,
keeping the population at its configured size. -/
def evolve (cfg : OptConfig) (pop : List Individual) (r : Nat) :
    Except String (List Individual × Nat) :=
  match breedPop cfg pop cfg.params.populationSize r with
  | .ok (children, r2) =>
      .ok ((bestIndividuals cfg.objectives pop ++ children).take
        cfg.params.populationSize, r2)
  | .error _ => .error "repair failure"

/-- Numeric order on fitness entries with the worst sentinel as the
largest value (Python reports it as infinite). -/
def FitVal.leB : FitVal → FitVal → Bool
  | .val a, .val b => decide (a ≤ b)
  | .val _, .worst => true
  | .worst, .val _ => false
  | .worst, .worst => true

/-- Finite magnitude of a fitness entry. -/
def FitVal.toQ : FitVal → ℚ
  | .val q => q
  | .worst => 0

/-- The population's fitness values on one objective. -/
def fitColumn (pop : List Individual) (i : Nat) : List FitVal :=
  pop.map fun ind => fitAt ind i

/-- Smallest fitness value on one objective over a population. -/
def fitMinAt (pop : List Individual) (i : Nat) : FitVal :=
  match fitColumn pop i with
  | [] => .worst
  | x :: rest => rest.foldl (fun a b => if FitVal.leB a b then a else b) x

/-- Largest fitness value on one objective over a population. -/
def fitMaxAt (pop : List Individual) (i : Nat) : FitVal :=
  match fitColumn pop i with
  | [] => .worst
  | x :: rest => rest.foldl (fun a b => if FitVal.leB a b then b else a) x

/-- Average fitness on one objective over a population (infinite as soon
as one entry is the worst sentinel, as in Python). -/
def fitAvgAt (pop : List Individual) (i : Nat) : FitVal :=
  if FitVal.worst ∈ fitColumn pop i then .worst
  else .val (listMean ((fitColumn pop i).map FitVal.toQ))

/-- Modelled from the spec: one logbook record - per-generation summary
statistics of the population's fitness, one entry per objective. -/
structure LogEntry where
  gen : Nat
  fitMin : List FitVal
  fitMax : List FitVal
  fitAvg : List FitVal
deriving DecidableEq

/-- Build the logbook record of one scored generation. -/
def mkLogEntry (objectives : List Objective) (pop : List Individual) (gen : Nat) :
    LogEntry :=
  ⟨gen,
    (List.range objectives.length).map fun i => fitMinAt pop i,
    (List.range objectives.length).map fun i => fitMaxAt pop i,
    (List.range objectives.length).map fun i => fitAvgAt pop i⟩

/-- Modelled from the spec: the generation loop - evaluate every
Individual, log the generation, then select/cross/mutate/repair into the
next generation; after the configured number of generations the final
population is evaluated and logged once more. -/
def runLoop (cfg : OptConfig) : Nat → Nat → List Individual → Nat →
    Except String (List Individual × List LogEntry × Nat)
  | 0, gen, pop, r =>
      match evalPopulation cfg.target cfg.objectives pop r with
      | .ok (popE, r2) => .ok (popE, [mkLogEntry cfg.objectives popE gen], r2)
      | .error e => .error e
  | n + 1, gen, pop, r =>
      match evalPopulation cfg.target cfg.objectives pop r with
      | .ok (popE, r2) =>
          match evolve cfg popE r2 with
          | .ok (pop2, r3) =>
              match runLoop cfg n (gen + 1) pop2 r3 with
              | .ok (popF, logs, r4) =>
                  .ok (popF, mkLogEntry cfg.objectives popE gen :: logs, r4)
              | .error e => .error e
          | .error e => .error e
      | .error e => .error e

/-- Modelled from the spec: the Optimiser's outputs record - the seed
used, the final population, the per-objective best Individuals with their
objective values, and the generation logbook. -/
structure Outputs where
  seed : Nat
  finalPopulation : List Individual
  bestIndividuals : List Individual
  bestObjectiveValues : List FitVal
  logbook : List LogEntry
deriving DecidableEq

/-- Modelled from the spec: one full optimisation run from a seed - record
the seed, initialise the population from it, run the generation loop and
report the final population, the per-objective bests and the logbook. -/
def runCore (cfg : OptConfig) (seed : Nat) :
    Except String (Outputs × List Individual × Nat) :=
  let ip := initPop cfg cfg.params.populationSize seed
  match runLoop cfg cfg.params.maxGenerations 0 ip.1 ip.2 with
  | .ok (popF, logs, r2) =>
      .ok (⟨seed, popF, bestIndividuals cfg.objectives popF,
        bestObjectiveValues cfg.objectives popF, logs⟩, popF, r2)
  | .error e => .error e

/-- Modelled from the spec: the Optimiser object - its configuration plus
the mutable per-run state (rng state, last population, last outputs). -/
structure Optimiser where
  config : OptConfig
  rngState : Nat
  population : List Individual
  outputs : Option Outputs

/-- Modelled from the spec: `Optimiser.set_seed` - restore the rng state,
leaving everything else (including stale outputs) in place. -/
def Optimiser.set_seed (o : Optimiser) (s : Nat) : Optimiser :=
  { o with rngState := s }

/-- Modelled from the spec: `Optimiser.run()` - execute the search from
the current rng state and overwrite the population and outputs. -/
def Optimiser.run (o : Optimiser) : Except String Optimiser :=
  match runCore o.config o.rngState with
  | .ok (out, pop, r2) =>
      .ok { config := o.config, rngState := r2, population := pop, outputs := some out }
  | .error e => .error e

/-- Outputs of a run, `none` when the run fails. -/
def runOutputs (o : Optimiser) : Option Outputs :=
  match o.run with
  | .ok o2 => o2.outputs
  | .error _ => none

/-- C1: for every seed S and fixed configuration, two independent
`run()` calls, each preceded by `set_seed(S)`, produce the same outputs -
structurally equal final populations, equal best Individuals and equal
logbooks (indeed equal outputs records) - regardless of any stale rng
state, population or outputs left by earlier runs: all randomness in a
run derives solely from the restored seed. -/
theorem optimiser_run_deterministic (o1 o2 : Optimiser) (S : Nat)
    (hcfg : o1.config = o2.config) (out1 out2 : Outputs)
    (h1 : runOutputs (o1.set_seed S) = some out1)
    (h2 : runOutputs (o2.set_seed S) = some out2) :
    popEq out1.finalPopulation out2.finalPopulation = true ∧
    out1.bestIndividuals = out2.bestIndividuals ∧
    out1.logbook = out2.logbook ∧
    out1 = out2 := by
  have key : runOutputs (o1.set_seed S) = runOutputs (o2.set_seed S) := by
    simp only [runOutputs, Optimiser.run, Optimiser.set_seed, hcfg]
  rw [h1, h2] at key
  injection key with key2
  subst key2
  exact ⟨popEq_refl _, rfl, rfl, rfl⟩

/-- Concrete configuration for the C1 witness. -/
def wCfg : OptConfig :=
  ⟨.modelT [] (fun m => .ok m),
    [⟨"a", fun _ => Gen.range 0 10⟩],
    [⟨.plain "a", true, 1⟩],
    ⟨2, 1, 50, 50⟩⟩

/-- First C1 witness Optimiser: a fresh instance. -/
def wOpt1 : Optimiser := ⟨wCfg, 0, [], none⟩

/-- Second C1 witness Optimiser: same configuration but different stale
rng state, population and outputs, as after an earlier run. -/
def wOpt2 : Optimiser :=
  ⟨wCfg, 123, [dInd], some ⟨99, [dInd], [dInd], [FitVal.worst], []⟩⟩

/-- Outputs of the first witness run after re-seeding with 5. -/
def wOut1 : Outputs := (runOutputs (wOpt1.set_seed 5)).getD ⟨0, [], [], [], []⟩

/-- Outputs of the second witness run after re-seeding with 5. -/
def wOut2 : Outputs := (runOutputs (wOpt2.set_seed 5)).getD ⟨0, [], [], [], []⟩

/-- Witness for C1: the two witness Optimisers, re-seeded with 5, run to
identical outputs despite their different stale state. -/
theorem optimiser_run_deterministic_witness :
    wOpt1.config = wOpt2.config ∧
    runOutputs (wOpt1.set_seed 5) = some wOut1 ∧
    runOutputs (wOpt2.set_seed 5) = some wOut2 ∧
    (popEq wOut1.finalPopulation wOut2.finalPopulation = true ∧
      wOut1.bestIndividuals = wOut2.bestIndividuals ∧
      wOut1.logbook = wOut2.logbook ∧
      wOut1 = wOut2) :=
  ⟨rfl, rfl, rfl,
    optimiser_run_deterministic wOpt1 wOpt2 5 rfl wOut1 wOut2 rfl rfl⟩

/-- The initial population has the configured size. -/
theorem initPop_length (cfg : OptConfig) : ∀ n r, (initPop cfg n r).1.length = n := by
  intro n
  induction n with
  | zero => intro r; rfl
  | succ n ih => intro r; simp [initPop, ih]

/-- Evaluation preserves the population size. -/
theorem evalPopulation_length (target : Target) (objs : List Objective) :
    ∀ (pop : List Individual) (r : Nat) res r2,
      evalPopulation target objs pop r = .ok (res, r2) → res.length = pop.length := by
  intro pop
  induction pop with
  | nil =>
      intro r res r2 h
      simp only [evalPopulation, Except.ok.injEq, Prod.mk.injEq] at h
      obtain ⟨h1, _⟩ := h
      subst h1
      rfl
  | cons ind rest ih =>
      intro r res r2 h
      simp only [evalPopulation] at h
      cases he : evalIndividual target objs ind r with
      | error e => rw [he] at h; simp at h
      | ok trip =>
          obtain ⟨ind2, r3, att⟩ := trip
          rw [he] at h
          simp only [] at h
          cases hrec : evalPopulation target objs rest r3 with
          | error e => rw [hrec] at h; simp at h
          | ok pr =>
              obtain ⟨pop2, r4⟩ := pr
              rw [hrec] at h
              simp only [Except.ok.injEq, Prod.mk.injEq] at h
              obtain ⟨h1, _⟩ := h
              subst h1
              simp [ih _ _ _ hrec]

/-- A successful brood has the requested size. -/
theorem breedPop_length (cfg : OptConfig) (pop : List Individual) :
    ∀ n r cs r2, breedPop cfg pop n r = .ok (cs, r2) → cs.length = n := by
  intro n
  induction n with
  | zero =>
      intro r cs r2 h
      simp only [breedPop, Except.ok.injEq, Prod.mk.injEq] at h
      obtain ⟨h1, _⟩ := h
      subst h1
      rfl
  | succ n ih =>
      intro r cs r2 h
      simp only [breedPop] at h
      cases hb : breedStep cfg pop r with
      | error e => rw [hb] at h; simp at h
      | ok pr =>
          obtain ⟨c, r3⟩ := pr
          rw [hb] at h
          simp only [] at h
          cases hrec : breedPop cfg pop n r3 with
          | error e => rw [hrec] at h; simp at h
          | ok pr2 =>
              obtain ⟨cs2, r4⟩ := pr2
              rw [hrec] at h
              simp only [Except.ok.injEq, Prod.mk.injEq] at h
              obtain ⟨h1, _⟩ := h
              subst h1
              simp [ih _ _ _ hrec]

/-- A successful evolution step keeps the population at its configured
size. -/
theorem evolve_length (cfg : OptConfig) (pop : List Individual) (r : Nat)
    (pop2 : List Individual) (r2 : Nat) (h : evolve cfg pop r = .ok (pop2, r2)) :
    pop2.length = cfg.params.populationSize := by
  simp only [evolve] at h
  cases hb : breedPop cfg pop cfg.params.populationSize r with
  | error e => rw [hb] at h; simp at h
  | ok pr =>
      obtain ⟨children, r3⟩ := pr
      rw [hb] at h
      simp only [Except.ok.injEq, Prod.mk.injEq] at h
      obtain ⟨h1, _⟩ := h
      subst h1
      have hc : children.length = cfg.params.populationSize :=
        breedPop_length cfg pop _ _ _ _ hb
      simp only [List.length_take, List.length_append, hc]
      omega

/-- The generation loop either returns the population it was given
(zero further generations) or a population of the configured size. -/
theorem runLoop_length (cfg : OptConfig) :
    ∀ n gen pop r popF logs r2,
      runLoop cfg n gen pop r = .ok (popF, logs, r2) →
      popF.length = pop.length ∨ popF.length = cfg.params.populationSize := by
  intro n
  induction n with
  | zero =>
      intro gen pop r popF logs r2 h
      simp only [runLoop] at h
      cases he : evalPopulation cfg.target cfg.objectives pop r with
      | error e => rw [he] at h; simp at h
      | ok pr =>
          obtain ⟨popE, r3⟩ := pr
          rw [he] at h
          simp only [Except.ok.injEq, Prod.mk.injEq] at h
          obtain ⟨h1, _⟩ := h
          subst h1
          exact Or.inl (evalPopulation_length _ _ _ _ _ _ he)
  | succ n ih =>
      intro gen pop r popF logs r2 h
      simp only [runLoop] at h
      cases he : evalPopulation cfg.target cfg.objectives pop r with
      | error e => rw [he] at h; simp at h
      | ok pr =>
          obtain ⟨popE, r3⟩ := pr
          rw [he] at h
          simp only [] at h
          cases hev : evolve cfg popE r3 with
          | error e => rw [hev] at h; simp at h
          | ok pr2 =>
              obtain ⟨pop2, r4⟩ := pr2
              rw [hev] at h
              simp only [] at h
              cases hrec : runLoop cfg n (gen + 1) pop2 r4 with
              | error e => rw [hrec] at h; simp at h
              | ok tr =>
                  obtain ⟨popF2, logs2, r5⟩ := tr
                  rw [hrec] at h
                  simp only [Except.ok.injEq, Prod.mk.injEq] at h
                  obtain ⟨h1, _⟩ := h
                  subst h1
                  rcases ih (gen + 1) pop2 r4 popF2 logs2 r5 hrec with h2 | h2
                  · rw [h2, evolve_length cfg popE r3 pop2 r4 hev]
                    exact Or.inr rfl
                  · exact Or.inr h2

/-- A successful run reports a final population of the configured size,
and its best-Individual and best-value lists are the per-objective
selections over exactly that final population. -/
theorem runCore_outputs_spec (cfg : OptConfig) (seed : Nat) (out : Outputs)
    (pop : List Individual) (r2 : Nat)
    (h : runCore cfg seed = .ok (out, pop, r2)) :
    out.finalPopulation.length = cfg.params.populationSize ∧
    out.bestIndividuals = bestIndividuals cfg.objectives out.finalPopulation ∧
    out.bestObjectiveValues = bestObjectiveValues cfg.objectives out.finalPopulation := by
  simp only [runCore] at h
  cases hl : runLoop cfg cfg.params.maxGenerations 0
      (initPop cfg cfg.params.populationSize seed).1
      (initPop cfg cfg.params.populationSize seed).2 with
  | error e => rw [hl] at h; simp at h
  | ok tr =>
      obtain ⟨popF, logs, r3⟩ := tr
      rw [hl] at h
      simp only [Except.ok.injEq, Prod.mk.injEq] at h
      obtain ⟨h1, _⟩ := h
      subst h1
      have hlen : popF.length = cfg.params.populationSize := by
        rcases runLoop_length cfg _ _ _ _ _ _ _ hl with h2 | h2
        · rw [h2, initPop_length]
        · exact h2
      exact ⟨hlen, rfl, rfl⟩

/-- Index form of `bestIndsAux`. -/
theorem bestIndsAux_getD (pop : List Individual) :
    ∀ (os : List Objective) (i0 j : Nat), j < os.length →
      (bestIndsAux pop os i0).getD j dInd =
        (pickBest (os.getD j ⟨.plain "", true, 1⟩).minimise (i0 + j) pop).getD dInd := by
  intro os
  induction os with
  | nil =>
      intro i0 j h
      simp at h
  | cons o t ih =>
      intro i0 j h
      match j with
      | 0 => simp [bestIndsAux]
      | j + 1 =>
          simp only [bestIndsAux, List.getD_cons_succ]
          rw [ih (i0 + 1) j (by simpa using h)]
          have harith : i0 + 1 + j = i0 + (j + 1) := by omega
          rw [harith]

/-- Index form of `bestValsAux`. -/
theorem bestValsAux_getD (pop : List Individual) :
    ∀ (os : List Objective) (i0 j : Nat), j < os.length →
      (bestValsAux pop os i0).getD j FitVal.worst =
        bestValue (os.getD j ⟨.plain "", true, 1⟩).minimise (i0 + j) pop := by
  intro os
  induction os with
  | nil =>
      intro i0 j h
      simp at h
  | cons o t ih =>
      intro i0 j h
      match j with
      | 0 => simp [bestValsAux]
      | j + 1 =>
          simp only [bestValsAux, List.getD_cons_succ]
          rw [ih (i0 + 1) j (by simpa using h)]
          have harith : i0 + 1 + j = i0 + (j + 1) := by omega
          rw [harith]

/-- On a nonempty population the per-objective pick exists, belongs to the
population, and is at least as good as every member on that objective. -/
theorem pickBest_spec (mini : Bool) (i : Nat) (pop : List Individual)
    (h : pop ≠ []) :
    ∃ b, pickBest mini i pop = some b ∧ b ∈ pop ∧
      ∀ ind ∈ pop, FitVal.betterEq mini (fitAt b i) (fitAt ind i) = true := by
  cases pop with
  | nil => exact absurd rfl h
  | cons x xs => exact ⟨_, rfl, pickFold_mem mini i xs x, pickFold_le mini i xs x⟩

/-- C8: after a run, the reported best Individuals are defined
per-objective independently: for every declared objective i, the i-th
reported best Individual belongs to the final population and its fitness
on objective i alone is at least as good (minimal if minimising, maximal
if maximising) as that of every Individual of the final population,
regardless of the other objectives - it is a per-objective extreme, not a
Pareto-front selection. -/
theorem optimiser_multiobjective_best (cfg : OptConfig) (seed : Nat)
    (out : Outputs) (pop : List Individual) (r2 : Nat)
    (hrun : runCore cfg seed = .ok (out, pop, r2))
    (hpop : 0 < cfg.params.populationSize) :
    ∀ i, i < cfg.objectives.length →
      (out.bestIndividuals.getD i dInd) ∈ out.finalPopulation ∧
      ∀ ind ∈ out.finalPopulation,
        FitVal.betterEq (cfg.objectives.getD i ⟨.plain "", true, 1⟩).minimise
          (fitAt (out.bestIndividuals.getD i dInd) i) (fitAt ind i) = true := by
  obtain ⟨hlen, hbi, hbv⟩ := runCore_outputs_spec cfg seed out pop r2 hrun
  intro i hi
  have hne : out.finalPopulation ≠ [] := by
    intro hc
    rw [hc] at hlen
    simp at hlen
    omega
  obtain ⟨b, hb, hmem, hle⟩ :=
    pickBest_spec (cfg.objectives.getD i ⟨.plain "", true, 1⟩).minimise i
      out.finalPopulation hne
  have heq : out.bestIndividuals.getD i dInd = b := by
    rw [hbi]
    unfold bestIndividuals
    rw [bestIndsAux_getD out.finalPopulation cfg.objectives 0 i hi]
    simp only [Nat.zero_add]
    rw [hb]
    rfl
  rw [heq]
  exact ⟨hmem, hle⟩

/-- C10: after a run, `outputs['bestObjectiveValues']` is parallel to
`outputs['bestIndividuals']`: for every declared objective i, the i-th
best objective value equals the fitness achieved by the i-th best
Individual on objective i. -/
theorem optimiser_best_objective_values (cfg : OptConfig) (seed : Nat)
    (out : Outputs) (pop : List Individual) (r2 : Nat)
    (hrun : runCore cfg seed = .ok (out, pop, r2))
    (hpop : 0 < cfg.params.populationSize) :
    ∀ i, i < cfg.objectives.length →
      out.bestObjectiveValues.getD i FitVal.worst =
        fitAt (out.bestIndividuals.getD i dInd) i := by
  obtain ⟨hlen, hbi, hbv⟩ := runCore_outputs_spec cfg seed out pop r2 hrun
  intro i hi
  have hne : out.finalPopulation ≠ [] := by
    intro hc
    rw [hc] at hlen
    simp at hlen
    omega
  obtain ⟨b, hb, hmem, hle⟩ :=
    pickBest_spec (cfg.objectives.getD i ⟨.plain "", true, 1⟩).minimise i
      out.finalPopulation hne
  have heq : out.bestIndividuals.getD i dInd = b := by
    rw [hbi]
    unfold bestIndividuals
    rw [bestIndsAux_getD out.finalPopulation cfg.objectives 0 i hi]
    simp only [Nat.zero_add]
    rw [hb]
    rfl
  rw [heq, hbv]
  unfold bestObjectiveValues
  rw [bestValsAux_getD out.finalPopulation cfg.objectives 0 i hi]
  simp only [Nat.zero_add]
  exact bestValue_eq_pickBest _ _ _ _ hb

/-- Concrete two-objective configuration for the C8 and C10 witnesses. -/
def wCfg8 : OptConfig :=
  ⟨.modelT [] (fun m => .ok m),
    [⟨"a", fun _ => Gen.range 0 10⟩, ⟨"b", fun _ => Gen.range 0 10⟩],
    [⟨.plain "a", true, 1⟩, ⟨.plain "b", false, 1⟩],
    ⟨3, 1, 50, 50⟩⟩

/-- Result of the witness run of `wCfg8` from seed 11. -/
def wRes8 : Outputs × List Individual × Nat :=
  ((runCore wCfg8 11).toOption).getD (⟨0, [], [], [], []⟩, [], 0)

/-- Witness for C8: in the two-objective witness run, the second reported
best Individual is in the final population and maximises the second
objective alone over it. -/
theorem optimiser_multiobjective_best_witness :
    runCore wCfg8 11 = Except.ok (wRes8.1, wRes8.2.1, wRes8.2.2) ∧
    0 < wCfg8.params.populationSize ∧
    1 < wCfg8.objectives.length ∧
    ((wRes8.1.bestIndividuals.getD 1 dInd) ∈ wRes8.1.finalPopulation ∧
      ∀ ind ∈ wRes8.1.finalPopulation,
        FitVal.betterEq (wCfg8.objectives.getD 1 ⟨.plain "", true, 1⟩).minimise
          (fitAt (wRes8.1.bestIndividuals.getD 1 dInd) 1) (fitAt ind 1) = true) :=
  ⟨rfl, by decide, by decide,
    optimiser_multiobjective_best wCfg8 11 wRes8.1 wRes8.2.1 wRes8.2.2 rfl
      (by decide) 1 (by decide)⟩

/-- Witness for C10: in the witness run, the first reported best objective
value is the fitness of the first reported best Individual on the first
objective. -/
theorem optimiser_best_objective_values_witness :
    runCore wCfg8 11 = Except.ok (wRes8.1, wRes8.2.1, wRes8.2.2) ∧
    0 < wCfg8.params.populationSize ∧
    0 < wCfg8.objectives.length ∧
    wRes8.1.bestObjectiveValues.getD 0 FitVal.worst =
      fitAt (wRes8.1.bestIndividuals.getD 0 dInd) 0 :=
  ⟨rfl, by decide, by decide,
    optimiser_best_objective_values wCfg8 11 wRes8.1 wRes8.2.1 wRes8.2.2 rfl
      (by decide) 0 (by decide)⟩

end BioPharma
